import Mathlib

/-!
# Verification of the Pico-Flash-Utility flash rewrite engine

Shallow embedding of the flash-mutating core of `Pico-Flash-Utility.c`
(version 2.00): `flash_write`, `flash_erase`, `erase_all_flash`,
`flash_blank_check` and `flash_test`, together with proofs of the
documented properties of that engine.

Modelling conventions:
* Flash memory is a function `Nat → Nat` giving the byte stored at each
  offset from `XIP_BASE`; the valid region is `[0, 0x200000)`.
  The RAM staging buffers `FlashNewData` and `FlashOldData` (each one
  sector, 4096 bytes, allocated in `main`) are likewise functions
  `Nat → Nat`; indices `≥ 4096` correspond to heap memory beyond the
  allocation and are tracked only so that out-of-range accesses in the C
  code stay visible in the model.
* The source constants are used literally: `FLASH_SECTOR_SIZE = 4096`,
  `TEST_RESULT_SIZE = 107` (Pico manufacturing test result, stored at
  flash offset `0x7F000`), `TOTAL_CYCLES = 5`, flash size `0x200000`.
* `save_and_disable_interrupts` / `restore_interrupts` and all logging
  (`printf`, `uart_send`, `display_*`) have no effect on the modelled
  state and are dropped.  `flash_range_erase(o, 4096)` sets the sector at
  `o` to `0xFF`; `flash_range_program(o, buf, 4096)` stores `buf` into
  the sector at `o`.
* The execution-location guard (the C check whether `main` lies outside
  RAM `[0x20000000, 0x20041FFF]`) is a boolean `RunningFromFlash` passed
  to the functions that perform the check in the source.  User
  confirmations read by `input_string` are `String` parameters compared
  like `strcmp`.
-/

set_option maxRecDepth 100000

/-- The mutable memory of the program: the flash contents (indexed by the
offset from `XIP_BASE`, i.e. what the global `FlashBaseAddress` points to)
and the two malloc'd staging buffers `FlashNewData` and `FlashOldData`. -/
structure PicoState where
  flash : Nat → Nat
  FlashNewData : Nat → Nat
  FlashOldData : Nat → Nat

/-- Embedding of `flash_write` (Pico-Flash-Utility.c, lines 1531-1694).

The source renames its argument: `SectorOffset` becomes the argument
rounded down to a sector boundary (the `--SectorOffset; ++FlashMemoryOffset`
loop), and the variable `FlashMemoryOffset` ends as the offset of the data
within the sector; we call the latter `DataOffset`.  If
`DataOffset + DataSize > 4096` the call fails with return code 1 before any
hardware action (lines 1584-1592).  Otherwise the sector is copied from
flash into `FlashOldData` (`old0`), the caller data is overlaid at
`DataOffset` (`old1`, the `memcpy` of line 1646), and if the target sector
is `0x7F000` the 107 archived manufacturing-test bytes
`Archive[i] = FlashBaseAddress[SectorOffset + i]` are re-applied at
`FlashOldData[DataOffset + i]` (`old2`, lines 1650-1655 — note the source
writes them at `DataOffset + i`, not at `i`).  Finally the sector is
erased and reprogrammed from the staging buffer (lines 1674-1683); return
code 0. -/
def flash_write (s : PicoState) (FlashMemoryOffset : Nat) (Data : Nat → Nat)
    (DataSize : Nat) : PicoState × Nat :=
  let SectorOffset := FlashMemoryOffset - FlashMemoryOffset % 4096
  let DataOffset := FlashMemoryOffset % 4096
  if 4096 < DataOffset + DataSize then
    (s, 1)
  else
    let old0 : Nat → Nat := fun i =>
      if i < 4096 then s.flash (SectorOffset + i) else s.FlashOldData i
    let old1 : Nat → Nat := fun i =>
      if DataOffset ≤ i ∧ i < DataOffset + DataSize then Data (i - DataOffset) else old0 i
    let old2 : Nat → Nat :=
      if SectorOffset = 0x7F000 then
        fun i =>
          if DataOffset ≤ i ∧ i < DataOffset + 107 then
            s.flash (0x7F000 + (i - DataOffset))
          else old1 i
      else old1
    ({ flash := fun o =>
        if SectorOffset ≤ o ∧ o < SectorOffset + 4096 then old2 (o - SectorOffset)
        else s.flash o,
       FlashNewData := s.FlashNewData,
       FlashOldData := old2 }, 0)

/-- Embedding of `flash_erase` (Pico-Flash-Utility.c, lines 1189-1237).

A misaligned offset is incremented until it reaches a sector boundary
(`while (FlashMemoryOffset % FLASH_SECTOR_SIZE) ++FlashMemoryOffset;`,
lines 1200-1210), i.e. it is rounded UP to the next multiple of 4096.
If the resulting offset is `0x7F000`, the sector holding Pico's
manufacturing test results, the erase is converted into a `flash_write`
of an all-`0xFF` sector (`memset(FlashNewData, 0xFF, FLASH_SECTOR_SIZE)`
then `flash_write(0x7F000, FlashNewData, FLASH_SECTOR_SIZE)`, lines
1216-1223).  Otherwise `flash_range_erase` sets the sector to `0xFF`
(lines 1226-1233).  The function performs no execution-location check. -/
def flash_erase (s : PicoState) (FlashMemoryOffset : Nat) : PicoState :=
  let off :=
    if FlashMemoryOffset % 4096 = 0 then FlashMemoryOffset
    else FlashMemoryOffset + (4096 - FlashMemoryOffset % 4096)
  if off = 0x7F000 then
    let nd : Nat → Nat := fun i => if i < 4096 then 0xFF else s.FlashNewData i
    (flash_write { s with FlashNewData := nd } 0x7F000 nd 4096).1
  else
    { s with flash := fun o =>
        if off ≤ o ∧ o < off + 4096 then 0xFF else s.flash o }

/-- The sector loop of `erase_all_flash` (lines 950-955):
`for (Loop1UInt32 = 0; Loop1UInt32 < 0x1FFFFF; Loop1UInt32 += 0x1000)
   flash_erase(Loop1UInt32);`
The offsets visited are `4096 * k` for `k < 512` (since
`4096 * 511 = 0x1FF000 < 0x1FFFFF ≤ 4096 * 512`); the full call uses
`n = 512`. -/
def eraseAllLoop (s : PicoState) (n : Nat) : PicoState :=
  (List.range n).foldl (fun st k => flash_erase st (4096 * k)) s

/-- Embedding of `erase_all_flash` (Pico-Flash-Utility.c, lines 904-965).

When `FlagUnattended = FLAG_OFF` (here `false`) the user is asked to
confirm; any answer other than `"Y"` or `"y"` returns with no action
(lines 920-927).  Then the execution-location guard: if `main` is not in
RAM (`RunningFromFlash = true`) the function returns with no hardware
action (lines 930-939).  Otherwise every sector of the 2 MB flash is
erased via `flash_erase`. -/
def erase_all_flash (s : PicoState) (FlagUnattended : Bool) (Confirmation : String)
    (RunningFromFlash : Bool) : PicoState :=
  if FlagUnattended = false ∧ Confirmation ≠ "Y" ∧ Confirmation ≠ "y" then s
  else if RunningFromFlash then s
  else eraseAllLoop s 512

/-- Embedding of `flash_blank_check` (Pico-Flash-Utility.c, lines 1045-1172).

The scan runs `for (Loop1UInt32 = 0; Loop1UInt32 < 0x1FFFFF; Loop1UInt32 += 16)`,
i.e. over the 131072 chunk starts `16 * k`, `k < 131072`, and for each of
the 16 bytes of a chunk increments `TotalErrors` when the byte differs
from `0xFF` (lines 1099-1111).  The function only reads flash; its state
component is returned unchanged, and the second component is the returned
`TotalErrors`. -/
def flash_blank_check (s : PicoState) : PicoState × Nat :=
  (s,
   (List.range 131072).foldl
     (fun TotalErrors k =>
       (List.range 16).foldl
         (fun te j => if s.flash (16 * k + j) ≠ 0xFF then te + 1 else te)
         TotalErrors)
     0)

/-- The chunks reported as dirty by `flash_blank_check`: a 16-byte line is
printed exactly when its `FlagDirt` was set, i.e. when at least one of its
bytes differs from `0xFF` (lines 1102-1111 and 1129-1159).  The list holds
the flash offsets of the dirty chunks, in scan order. -/
def flash_blank_check_dirty_chunks (s : PicoState) : List Nat :=
  ((List.range 131072).map (fun k => 16 * k)).filter
    (fun c => (List.range 16).any (fun j => s.flash (c + j) != 0xFF))

/-- The `switch (Loop2UInt8)` of `flash_test` (lines 1366-1397) choosing the
two-byte test pattern `(Dum1Str[0], Dum1Str[1])` for each of the five
passes of a write cycle. -/
def testPattern (Loop2UInt8 : Nat) : Nat × Nat :=
  if Loop2UInt8 = 0 then (0x00, 0x00)
  else if Loop2UInt8 = 1 then (0x55, 0x55)
  else if Loop2UInt8 = 2 then (0xAA, 0xAA)
  else if Loop2UInt8 = 3 then (0x55, 0xAA)
  else (0xAA, 0x55)  -- case 4 of the switch; the loop index never exceeds 4

/-- The pattern fill of `flash_test` (lines 1402-1406): the whole staging
buffer `FlashNewData[0..4096)` receives the two-byte pattern (`Dum1Str[0]`
at even indices, `Dum1Str[1]` at odd indices). -/
def fillPattern (nd : Nat → Nat) (b0 b1 : Nat) : Nat → Nat :=
  fun i => if i < 4096 then (if i % 2 = 0 then b0 else b1) else nd i

/-- The refill of `flash_test` after writing sector `0x7F000`
(lines 1421-1428): `for (Loop1UInt16 = 0; Loop1UInt16 < 107; Loop1UInt16 += 2)`
stores the pattern at indices `Loop1UInt16` and `Loop1UInt16 + 1`, touching
indices `0..107` (even index gets `Dum1Str[0]`, odd gets `Dum1Str[1]`). -/
def refillTestResult (nd : Nat → Nat) (b0 b1 : Nat) : Nat → Nat :=
  fun i => if i < 108 then (if i % 2 = 0 then b0 else b1) else nd i

/-- One iteration of the sector-write loop of `flash_test` (lines 1416-1429):
`flash_write(SectorOffset, FlashNewData, FLASH_SECTOR_SIZE)` followed, for
sector `0x7F000`, by the refill of `FlashNewData`. -/
def writeAllStep (b0 b1 : Nat) (st : PicoState) (k : Nat) : PicoState :=
  let st1 := (flash_write st (4096 * k) st.FlashNewData 4096).1
  if 4096 * k = 0x7F000 then
    { st1 with FlashNewData := refillTestResult st1.FlashNewData b0 b1 }
  else st1

/-- The sector-write loop of `flash_test` (lines 1416-1429):
`for (SectorOffset = 0; SectorOffset < 0x1FFFFF; SectorOffset += 0x1000)`,
i.e. 512 sectors; the full call uses `n = 512`. -/
def writeAllLoop (b0 b1 : Nat) (st : PicoState) (n : Nat) : PicoState :=
  (List.range n).foldl (writeAllStep b0 b1) st

/-- The verify loop of `flash_test` (lines 1450-1466):
`for (Loop1UInt32 = 0; Loop1UInt32 < 0x1FFFFF; Loop1UInt32 += 2)` reads
the bytes at `Loop1UInt32` and `Loop1UInt32 + 1` and increments
`TotalErrors` for each byte differing from the expected pattern byte.
The visited offsets are `2 * m` and `2 * m + 1` for `m < 1048576`. -/
def verifyErrors (f : Nat → Nat) (b0 b1 : Nat) : Nat :=
  (List.range 1048576).foldl
    (fun te m =>
      te + (if f (2 * m) ≠ b0 then 1 else 0) + (if f (2 * m + 1) ≠ b1 then 1 else 0))
    0

/-- One (cycle, pattern) pass of `flash_test` (lines 1349-1478):
erase the whole flash (`erase_all_flash(FLAG_ON)` — the confirmation
string is not consulted in unattended mode), add the blank-check error
count, fill `FlashNewData` with the pattern, write every sector, and add
the verify-loop error count. -/
def flashTestRound (RunningFromFlash : Bool) (p : Nat) (acc : PicoState × Nat) :
    PicoState × Nat :=
  let st1 := erase_all_flash acc.1 true "" RunningFromFlash
  let e1 := acc.2 + (flash_blank_check st1).2
  let b0 := (testPattern p).1
  let b1 := (testPattern p).2
  let st2 := { st1 with FlashNewData := fillPattern st1.FlashNewData b0 b1 }
  let st3 := writeAllLoop b0 b1 st2 512
  (st3, e1 + verifyErrors st3.flash b0 b1)

/-- Embedding of `flash_test` (Pico-Flash-Utility.c, lines 1248-1518).

If the user's confirmation is neither `"Y"` nor `"y"` the function
returns immediately (lines 1317-1320); the reported error count is 0
since `TotalErrors` is never computed.  Otherwise it runs
`TOTAL_CYCLES = 5` write cycles of 5 pattern passes each, performs a
final `erase_all_flash(FLAG_ON)` (line 1487) and reports the accumulated
`TotalErrors` (line 1498). -/
def flash_test (s : PicoState) (Confirmation : String) (RunningFromFlash : Bool) :
    PicoState × Nat :=
  if Confirmation ≠ "Y" ∧ Confirmation ≠ "y" then (s, 0)
  else
    let r := (List.range 5).foldl
      (fun acc _WriteCycle =>
        (List.range 5).foldl (fun a p => flashTestRound RunningFromFlash p a) acc)
      (s, 0)
    (erase_all_flash r.1 true "" RunningFromFlash, r.2)

/-- A concrete flash state used for counterexamples and witnesses: the byte
at offset `o` is `o % 256`, the staging buffers are zeroed. -/
def bugState : PicoState :=
  { flash := fun o => o % 256,
    FlashNewData := fun _ => 0,
    FlashOldData := fun _ => 0 }

-- sanity examples (model evaluation at concrete points)
example : (flash_erase bugState 0x1001).flash 0x2000 = 0xFF := by decide
example : ((flash_write bugState 0x7F001 (fun _ => 0x00) 1).1).flash 0x7F001 = 0 := by decide
example : ((flash_write bugState 0x7F000 (fun _ => 0x11) 4096).1).flash 0x7F005 = 5 := by decide
example : ((flash_write bugState 0x7F000 (fun _ => 0x11) 4096).1).flash 0x7F100 = 0x11 := by decide

/-! ## Generic counting lemmas for the scan loops -/

/-- A left fold that adds a per-element contribution is the initial value
plus the sum of the contributions. -/
theorem foldl_add_init (g : Nat → Nat) :
    ∀ (l : List Nat) (init : Nat),
      l.foldl (fun a k => a + g k) init = init + (l.map g).sum := by
  intro l
  induction l with
  | nil => intro init; simp
  | cons x xs ih =>
      intro init
      simp only [List.foldl_cons, List.map_cons, List.sum_cons, ih]
      omega

/-- A left fold that conditionally increments is the initial value plus an
indicator sum. -/
theorem foldl_if_count (p : Nat → Prop) [DecidablePred p] :
    ∀ (l : List Nat) (init : Nat),
      l.foldl (fun te j => if p j then te + 1 else te) init
        = init + (l.map (fun j => if p j then 1 else 0)).sum := by
  intro l
  induction l with
  | nil => intro init; simp
  | cons x xs ih =>
      intro init
      simp only [List.foldl_cons, List.map_cons, List.sum_cons, ih]
      by_cases h : p x
      · simp only [if_pos h]; omega
      · simp only [if_neg h]; omega

theorem sum_map_range_succ (g : Nat → Nat) (n : Nat) :
    ((List.range (n + 1)).map g).sum = ((List.range n).map g).sum + g n := by
  simp [List.range_succ]

/-- Summing per-chunk sums of 16 consecutive contributions equals the sum
over the full range. -/
theorem sum_chunks (I : Nat → Nat) :
    ∀ n : Nat,
      ((List.range n).map
        (fun k => ((List.range 16).map (fun j => I (16 * k + j))).sum)).sum
        = ((List.range (16 * n)).map I).sum := by
  intro n
  induction n with
  | zero => simp
  | succ m ih =>
      rw [sum_map_range_succ, ih, show 16 * (m + 1) = 16 * m + 16 by ring,
        List.range_add, List.map_append, List.sum_append, List.map_map]
      simp only [Function.comp_def]

/-- Summing pairwise contributions at `2m` and `2m+1` equals the sum over
the doubled range. -/
theorem sum_pairs (I : Nat → Nat) :
    ∀ n : Nat,
      ((List.range n).map (fun m => I (2 * m) + I (2 * m + 1))).sum
        = ((List.range (2 * n)).map I).sum := by
  intro n
  induction n with
  | zero => simp
  | succ m ih =>
      rw [sum_map_range_succ, ih, show 2 * (m + 1) = (2 * m + 1) + 1 by ring,
        sum_map_range_succ, sum_map_range_succ]
      omega

/-- The sum over `List.range n` of the indicator of the interval `[a, b)`. -/
theorem sum_interval (a b : Nat) :
    ∀ (n : Nat) (g : Nat → Nat),
      (∀ o, o < n → g o = if a ≤ o ∧ o < b then 1 else 0) →
      ((List.range n).map g).sum = min b n - min a n := by
  intro n
  induction n with
  | zero => intro g _; simp
  | succ m ih =>
      intro g hg
      rw [sum_map_range_succ, ih g (fun o ho => hg o (Nat.lt_succ_of_lt ho)),
        hg m (Nat.lt_succ_self m)]
      by_cases h : a ≤ m ∧ m < b
      · simp only [if_pos h]; omega
      · simp only [if_neg h]; omega

/-- An indicator sum over `List.range n` counts the members of
`(Finset.range n).filter p`. -/
theorem sum_indicator_card (p : Nat → Prop) [DecidablePred p] :
    ∀ n : Nat,
      ((List.range n).map (fun o => if p o then 1 else 0)).sum
        = ((Finset.range n).filter p).card := by
  intro n
  induction n with
  | zero => simp
  | succ m ih =>
      rw [sum_map_range_succ, ih, Finset.range_succ, Finset.filter_insert]
      by_cases h : p m
      · rw [if_pos h, if_pos h,
          Finset.card_insert_of_not_mem (by simp [Finset.mem_filter])]
      · rw [if_neg h, if_neg h]; omega

/-- Filtering `List.range n` for equality with a single member `m < n`. -/
theorem filter_range_single (m : Nat) :
    ∀ n : Nat, m < n →
      (List.range n).filter (fun k => k == m) = [m] := by
  intro n
  induction n with
  | zero => intro h; omega
  | succ q ih =>
      intro h
      rw [List.range_succ, List.filter_append]
      by_cases hq : m = q
      · subst hq
        have h1 : (List.range m).filter (fun k => k == m) = [] := by
          rw [List.filter_eq_nil_iff]
          intro a ha
          simp only [List.mem_range] at ha
          simp only [beq_iff_eq]
          omega
        simp [h1]
      · have h2 : m < q := by omega
        rw [ih h2]
        simp [Ne.symm hq]

/-! ## Pointwise characterisation of the write and erase operations -/

/-- `flash_write` never touches the `FlashNewData` buffer. -/
theorem flash_write_newData (s : PicoState) (off : Nat) (d : Nat → Nat) (n : Nat) :
    ((flash_write s off d n).1).FlashNewData = s.FlashNewData := by
  rw [flash_write]
  split <;> rfl

/-- Effect of a sector-aligned `flash_write` of a full sector on each flash
byte: inside the target sector the byte becomes the corresponding data
byte, except that in sector `0x7F000` the first 107 bytes are restored
from flash; outside the sector nothing changes. -/
theorem flash_write_sector_flash (s : PicoState) (k : Nat) (d : Nat → Nat) (o : Nat) :
    ((flash_write s (4096 * k) d 4096).1).flash o =
      if 4096 * k ≤ o ∧ o < 4096 * k + 4096 then
        (if 4096 * k = 0x7F000 ∧ o < 0x7F000 + 107 then s.flash o else d (o - 4096 * k))
      else s.flash o := by
  have hmod : 4096 * k % 4096 = 0 := Nat.mul_mod_right 4096 k
  simp only [flash_write, hmod, Nat.sub_zero, Nat.zero_add, Nat.add_zero,
    lt_self_iff_false, if_false, Nat.zero_le, true_and, ite_apply]
  split_ifs <;> first | rfl | omega | (congr 1; omega)

/-- Effect of a sector-aligned `flash_erase` on each flash byte: the target
sector becomes `0xFF`, except that in sector `0x7F000` the 107
manufacturing-test bytes keep their previous flash value. -/
theorem flash_erase_sector_flash (s : PicoState) (k : Nat) (o : Nat) :
    (flash_erase s (4096 * k)).flash o =
      if 4096 * k ≤ o ∧ o < 4096 * k + 4096 then
        (if 4096 * k = 0x7F000 ∧ o < 0x7F000 + 107 then s.flash o else 0xFF)
      else s.flash o := by
  have hmod : 4096 * k % 4096 = 0 := Nat.mul_mod_right 4096 k
  by_cases hp : 4096 * k = 0x7F000
  · have hk : k = 127 := by omega
    subst hk
    clear hp
    rw [flash_erase]
    norm_num
    have hw := flash_write_sector_flash
      { flash := s.flash,
        FlashNewData := fun i => if i < 4096 then (255 : Nat) else s.FlashNewData i,
        FlashOldData := s.FlashOldData }
      127 (fun i => if i < 4096 then (255 : Nat) else s.FlashNewData i) o
    norm_num at hw
    rw [hw]
    split_ifs <;> first | rfl | omega
  · rw [flash_erase]
    have hoff : (if 4096 * k % 4096 = 0 then 4096 * k
        else 4096 * k + (4096 - 4096 * k % 4096)) = 4096 * k := by
      simp [hmod]
    rw [hoff, if_neg hp]
    simp only []
    split_ifs <;> first | rfl | omega

theorem eraseAllLoop_succ (s : PicoState) (n : Nat) :
    eraseAllLoop s (n + 1) = flash_erase (eraseAllLoop s n) (4096 * n) := by
  simp [eraseAllLoop, List.range_succ]

/-- Effect of the first `n` iterations of the `erase_all_flash` sector loop
on each flash byte: every byte below `4096 * n` is erased to `0xFF`
except the protected manufacturing-test bytes, which keep their original
value; bytes at `4096 * n` and above are untouched. -/
theorem eraseAllLoop_flash (s : PicoState) :
    ∀ (n : Nat) (o : Nat),
      (eraseAllLoop s n).flash o =
        if o < 4096 * n then
          (if 0x7F000 ≤ o ∧ o < 0x7F000 + 107 then s.flash o else 0xFF)
        else s.flash o := by
  intro n
  induction n with
  | zero => intro o; simp [eraseAllLoop]
  | succ m ih =>
      intro o
      rw [eraseAllLoop_succ, flash_erase_sector_flash, ih o]
      split_ifs <;> first | rfl | omega

/-- Effect of an unattended `erase_all_flash` with the execution-location
guard passing: the whole 2 MB flash is erased except the 107 protected
bytes. -/
theorem erase_all_flash_unattended (s : PicoState) (o : Nat) :
    (erase_all_flash s true "" false).flash o =
      if o < 0x200000 then
        (if 0x7F000 ≤ o ∧ o < 0x7F000 + 107 then s.flash o else 0xFF)
      else s.flash o := by
  have h := eraseAllLoop_flash s 512 o
  norm_num at h
  rw [erase_all_flash, if_neg (by simp), if_neg (by simp)]
  exact h

theorem writeAllLoop_succ (b0 b1 : Nat) (st : PicoState) (n : Nat) :
    writeAllLoop b0 b1 st (n + 1) = writeAllStep b0 b1 (writeAllLoop b0 b1 st n) n := by
  simp [writeAllLoop, List.range_succ]

/-- `FlashNewData` after one step of the `flash_test` sector-write loop. -/
theorem writeAllStep_newData (b0 b1 : Nat) (st : PicoState) (k : Nat) :
    (writeAllStep b0 b1 st k).FlashNewData =
      if 4096 * k = 0x7F000 then refillTestResult st.FlashNewData b0 b1
      else st.FlashNewData := by
  rw [writeAllStep]
  split
  next h => rw [flash_write_newData]
  next h => rw [flash_write_newData]

/-- Flash contents after one step of the `flash_test` sector-write loop. -/
theorem writeAllStep_flash (b0 b1 : Nat) (st : PicoState) (k : Nat) (o : Nat) :
    (writeAllStep b0 b1 st k).flash o =
      if 4096 * k ≤ o ∧ o < 4096 * k + 4096 then
        (if 4096 * k = 0x7F000 ∧ o < 0x7F000 + 107 then st.flash o
         else st.FlashNewData (o - 4096 * k))
      else st.flash o := by
  rw [writeAllStep]
  split
  next h => exact flash_write_sector_flash st k st.FlashNewData o
  next h => exact flash_write_sector_flash st k st.FlashNewData o

/-- Effect of the first `n` iterations of the `flash_test` sector-write
loop, starting from a staging buffer filled with the two-byte pattern:
the pattern lands everywhere below `4096 * n` except on the protected
bytes, and the staging buffer still holds the pattern afterwards. -/
theorem writeAllLoop_spec (b0 b1 : Nat) :
    ∀ (n : Nat) (st : PicoState),
      (∀ i, i < 4096 → st.FlashNewData i = (if i % 2 = 0 then b0 else b1)) →
      (∀ i, i < 4096 →
          (writeAllLoop b0 b1 st n).FlashNewData i = (if i % 2 = 0 then b0 else b1)) ∧
      (∀ o, (writeAllLoop b0 b1 st n).flash o =
          if o < 4096 * n then
            (if 0x7F000 ≤ o ∧ o < 0x7F000 + 107 then st.flash o
             else (if o % 2 = 0 then b0 else b1))
          else st.flash o) := by
  intro n
  induction n with
  | zero =>
      intro st hnd
      constructor
      · intro i hi; simpa [writeAllLoop] using hnd i hi
      · intro o; simp [writeAllLoop]
  | succ m ih =>
      intro st hnd
      obtain ⟨ihnd, ihflash⟩ := ih st hnd
      constructor
      · intro i hi
        rw [writeAllLoop_succ, writeAllStep_newData]
        by_cases hm : 4096 * m = 0x7F000
        · rw [if_pos hm]
          simp only [refillTestResult]
          by_cases h108 : i < 108
          · rw [if_pos h108]
          · rw [if_neg h108]
            exact ihnd i hi
        · rw [if_neg hm]
          exact ihnd i hi
      · intro o
        rw [writeAllLoop_succ, writeAllStep_flash]
        by_cases hin : 4096 * m ≤ o ∧ o < 4096 * m + 4096
        · rw [if_pos hin]
          by_cases hps : 4096 * m = 0x7F000 ∧ o < 0x7F000 + 107
          · rw [if_pos hps, ihflash o]
            split_ifs <;> first | rfl | omega
          · rw [if_neg hps, ihnd (o - 4096 * m) (by omega),
              show (o - 4096 * m) % 2 = o % 2 from by omega]
            split_ifs <;> first | rfl | omega
        · rw [if_neg hin, ihflash o]
          split_ifs <;> first | rfl | omega

/-! ## The scan loops as indicator sums -/

/-- The error count of `flash_blank_check` counts, byte for byte, the
non-`0xFF` bytes of the 2 MB flash range. -/
theorem flash_blank_check_count (s : PicoState) :
    (flash_blank_check s).2
      = ((List.range 0x200000).map (fun o => if s.flash o ≠ 0xFF then 1 else 0)).sum := by
  rw [flash_blank_check]
  simp only [foldl_if_count]
  rw [foldl_add_init]
  have h := sum_chunks (fun o => if s.flash o ≠ 0xFF then 1 else 0) 131072
  norm_num at h ⊢
  exact h

/-- The verify loop of `flash_test` counts, byte for byte, the bytes of the
2 MB flash range that differ from the expected pattern byte. -/
theorem verifyErrors_eq (f : Nat → Nat) (b0 b1 : Nat) :
    verifyErrors f b0 b1
      = ((List.range 0x200000).map
          (fun o => if f o ≠ (if o % 2 = 0 then b0 else b1) then 1 else 0)).sum := by
  rw [verifyErrors]
  have hbody : (fun (te m : Nat) =>
        te + (if f (2 * m) ≠ b0 then 1 else 0) + (if f (2 * m + 1) ≠ b1 then 1 else 0))
      = (fun te m =>
        te + ((if f (2 * m) ≠ b0 then 1 else 0) + (if f (2 * m + 1) ≠ b1 then 1 else 0))) := by
    funext te m
    omega
  rw [hbody, foldl_add_init]
  have hmap : (fun (m : Nat) =>
        (if f (2 * m) ≠ b0 then 1 else 0) + (if f (2 * m + 1) ≠ b1 then 1 else 0))
      = (fun m =>
        (fun o => if f o ≠ (if o % 2 = 0 then b0 else b1) then 1 else 0) (2 * m)
          + (fun o => if f o ≠ (if o % 2 = 0 then b0 else b1) then 1 else 0) (2 * m + 1)) := by
    funext m
    have h1 : (2 * m) % 2 = 0 := by omega
    have h2 : (2 * m + 1) % 2 = 1 := by omega
    simp only [h1, h2]
    norm_num
  rw [hmap]
  have h := sum_pairs
    (fun o => if f o ≠ (if o % 2 = 0 then b0 else b1) then 1 else 0) 1048576
  rw [h]
  norm_num

/-! ## One pass of the burn-in harness -/

/-- One (cycle, pattern) pass of `flash_test`, run from a state whose 107
protected bytes hold values `v i` that differ from `0xFF`, `0x00`, `0x55`
and `0xAA`: the pass contributes exactly `107 + 107 = 214` to the error
count (the blank check after the full erase and the verify loop after the
full pattern write each see exactly the 107 protected bytes), and the
protected bytes still hold `v` afterwards. -/
theorem flashTestRound_spec (v : Nat → Nat)
    (Hv : ∀ i, i < 107 → v i ≠ 0xFF ∧ v i ≠ 0x00 ∧ v i ≠ 0x55 ∧ v i ≠ 0xAA)
    (p : Nat) (st : PicoState) (e : Nat)
    (Hst : ∀ i, i < 107 → st.flash (0x7F000 + i) = v i) :
    (∀ i, i < 107 → (flashTestRound false p (st, e)).1.flash (0x7F000 + i) = v i) ∧
      (flashTestRound false p (st, e)).2 = e + 214 := by
  have hb : ((testPattern p).1 = 0x00 ∨ (testPattern p).1 = 0x55 ∨ (testPattern p).1 = 0xAA) ∧
      ((testPattern p).2 = 0x00 ∨ (testPattern p).2 = 0x55 ∨ (testPattern p).2 = 0xAA) := by
    unfold testPattern
    split_ifs <;> simp
  obtain ⟨hb0, hb1⟩ := hb
  set E := erase_all_flash st true "" false with hEdef
  set F : PicoState :=
    { E with FlashNewData := fillPattern E.FlashNewData (testPattern p).1 (testPattern p).2 }
    with hFdef
  set W := writeAllLoop (testPattern p).1 (testPattern p).2 F 512 with hWdef
  have hr : flashTestRound false p (st, e)
      = (W, e + (flash_blank_check E).2
            + verifyErrors W.flash (testPattern p).1 (testPattern p).2) := rfl
  -- the state after the full erase
  have hE : ∀ o, E.flash o =
      if o < 0x200000 then
        (if 0x7F000 ≤ o ∧ o < 0x7F000 + 107 then st.flash o else 0xFF)
      else st.flash o := fun o => erase_all_flash_unattended st o
  have hEprot : ∀ i, i < 107 → E.flash (0x7F000 + i) = v i := by
    intro i hi
    rw [hE, if_pos (by omega), if_pos (by omega)]
    exact Hst i hi
  -- the blank check after the erase counts exactly the 107 protected bytes
  have hblank : (flash_blank_check E).2 = 107 := by
    rw [flash_blank_check_count]
    have hptw : ∀ o, o < 0x200000 →
        (if E.flash o ≠ 0xFF then 1 else 0)
          = if 0x7F000 ≤ o ∧ o < 0x7F000 + 107 then (1 : Nat) else 0 := by
      intro o ho
      by_cases hprot : 0x7F000 ≤ o ∧ o < 0x7F000 + 107
      · rw [if_pos hprot]
        have hi := hEprot (o - 0x7F000) (by omega)
        rw [show 0x7F000 + (o - 0x7F000) = o from by omega] at hi
        rw [hi, if_pos (Hv (o - 0x7F000) (by omega)).1]
      · rw [if_neg hprot, hE, if_pos ho, if_neg hprot]
        simp
    have h := sum_interval 0x7F000 (0x7F000 + 107) 0x200000
      (fun o => if E.flash o ≠ 0xFF then 1 else 0) hptw
    rw [h]
    omega
  -- the staging buffer after the fill holds the pattern
  have hFnd : ∀ i, i < 4096 →
      F.FlashNewData i = (if i % 2 = 0 then (testPattern p).1 else (testPattern p).2) := by
    intro i hi
    show fillPattern E.FlashNewData (testPattern p).1 (testPattern p).2 i = _
    rw [fillPattern]
    simp only [if_pos hi]
  obtain ⟨hWnd, hWflash⟩ :=
    writeAllLoop_spec (testPattern p).1 (testPattern p).2 512 F hFnd
  -- protected bytes after the full pattern write
  have hWprot : ∀ i, i < 107 → W.flash (0x7F000 + i) = v i := by
    intro i hi
    rw [hWdef, hWflash (0x7F000 + i), if_pos (by omega), if_pos (by omega)]
    show E.flash (0x7F000 + i) = v i
    exact hEprot i hi
  -- the verify loop counts exactly the 107 protected bytes
  have hverify :
      verifyErrors W.flash (testPattern p).1 (testPattern p).2 = 107 := by
    rw [verifyErrors_eq]
    have hptw : ∀ o, o < 0x200000 →
        (if W.flash o ≠ (if o % 2 = 0 then (testPattern p).1 else (testPattern p).2)
          then 1 else 0)
          = if 0x7F000 ≤ o ∧ o < 0x7F000 + 107 then (1 : Nat) else 0 := by
      intro o ho
      by_cases hprot : 0x7F000 ≤ o ∧ o < 0x7F000 + 107
      · rw [if_pos hprot]
        have hWo : W.flash o = v (o - 0x7F000) := by
          have h1 := hWprot (o - 0x7F000) (by omega)
          rw [show 0x7F000 + (o - 0x7F000) = o from by omega] at h1
          exact h1
        rw [hWo]
        have hvi := Hv (o - 0x7F000) (by omega)
        by_cases hpar : o % 2 = 0
        · rw [if_pos hpar]
          rcases hb0 with h | h | h
          · rw [h, if_pos hvi.2.1]
          · rw [h, if_pos hvi.2.2.1]
          · rw [h, if_pos hvi.2.2.2]
        · rw [if_neg hpar]
          rcases hb1 with h | h | h
          · rw [h, if_pos hvi.2.1]
          · rw [h, if_pos hvi.2.2.1]
          · rw [h, if_pos hvi.2.2.2]
      · have hWo : W.flash o
            = (if o % 2 = 0 then (testPattern p).1 else (testPattern p).2) := by
          rw [hWdef, hWflash o, if_pos (show o < 4096 * 512 from by omega), if_neg hprot]
        rw [if_neg hprot, hWo]
        simp
    have h := sum_interval 0x7F000 (0x7F000 + 107) 0x200000
      (fun o => if W.flash o ≠ (if o % 2 = 0 then (testPattern p).1 else (testPattern p).2)
        then 1 else 0) hptw
    rw [h]
    omega
  constructor
  · intro i hi
    rw [hr]
    exact hWprot i hi
  · rw [hr]
    show e + (flash_blank_check E).2 + verifyErrors W.flash _ _ = e + 214
    rw [hblank, hverify]

/-- Folding any list of pattern passes of `flash_test` preserves the
protected bytes and adds `214` errors per pass. -/
theorem flashTestFold (v : Nat → Nat)
    (Hv : ∀ i, i < 107 → v i ≠ 0xFF ∧ v i ≠ 0x00 ∧ v i ≠ 0x55 ∧ v i ≠ 0xAA) :
    ∀ (l : List Nat) (st : PicoState) (e : Nat),
      (∀ i, i < 107 → st.flash (0x7F000 + i) = v i) →
      (∀ i, i < 107 →
          (l.foldl (fun a p => flashTestRound false p a) (st, e)).1.flash (0x7F000 + i)
            = v i) ∧
      (l.foldl (fun a p => flashTestRound false p a) (st, e)).2 = e + 214 * l.length := by
  intro l
  induction l with
  | nil =>
      intro st e hst
      constructor
      · intro i hi; exact hst i hi
      · simp
  | cons x xs ih =>
      intro st e hst
      obtain ⟨h1, h2⟩ := flashTestRound_spec v Hv x st e hst
      obtain ⟨ih1, ih2⟩ := ih (flashTestRound false x (st, e)).1
        (flashTestRound false x (st, e)).2 h1
      simp only [Prod.mk.eta] at ih1 ih2
      constructor
      · intro i hi
        simp only [List.foldl_cons]
        exact ih1 i hi
      · simp only [List.foldl_cons, List.length_cons]
        rw [ih2, h2]
        ring

/-- Folding any list of write cycles of `flash_test` preserves the
protected bytes and adds `5 × 214 = 1070` errors per cycle. -/
theorem flashTestCycles (v : Nat → Nat)
    (Hv : ∀ i, i < 107 → v i ≠ 0xFF ∧ v i ≠ 0x00 ∧ v i ≠ 0x55 ∧ v i ≠ 0xAA) :
    ∀ (l2 : List Nat) (st : PicoState) (e : Nat),
      (∀ i, i < 107 → st.flash (0x7F000 + i) = v i) →
      (∀ i, i < 107 →
          (l2.foldl (fun acc _c =>
              (List.range 5).foldl (fun a p => flashTestRound false p a) acc)
            (st, e)).1.flash (0x7F000 + i) = v i) ∧
      (l2.foldl (fun acc _c =>
          (List.range 5).foldl (fun a p => flashTestRound false p a) acc) (st, e)).2
        = e + 1070 * l2.length := by
  intro l2
  induction l2 with
  | nil =>
      intro st e hst
      constructor
      · intro i hi; exact hst i hi
      · simp
  | cons x xs ih =>
      intro st e hst
      obtain ⟨h1, h2⟩ := flashTestFold v Hv (List.range 5) st e hst
      obtain ⟨ih1, ih2⟩ :=
        ih ((List.range 5).foldl (fun a p => flashTestRound false p a) (st, e)).1
          ((List.range 5).foldl (fun a p => flashTestRound false p a) (st, e)).2 h1
      simp only [Prod.mk.eta] at ih1 ih2
      constructor
      · intro i hi
        simp only [List.foldl_cons]
        exact ih1 i hi
      · simp only [List.foldl_cons, List.length_cons]
        rw [ih2, h2]
        simp only [List.length_range]
        ring

/-! ## The claims -/

/-- A concrete state whose protected bytes are all `0x01`, used to
instantiate theorems whose hypotheses exclude the values `0xFF`, `0x00`,
`0x55`, `0xAA` for the protected bytes. -/
def burnInState : PicoState :=
  { flash := fun _ => 1,
    FlashNewData := fun _ => 0,
    FlashOldData := fun _ => 0 }

/-- Claim C1 (code bug): a single misaligned `flash_write` into sector
`0x7F000` corrupts a protected manufacturing-test byte.  On the state
whose byte at offset `o` is `o % 256`, the call
`flash_write(0x7F001, data, 1)` succeeds (returns 0) and changes the
protected byte at `0x7F001` from `1` to `0`: the source re-applies the
archived byte `Archive[0]` (the old byte of `0x7F000`) at staging offset
`FlashMemoryOffset + 0 = 1` instead of offset `0`. -/
theorem claim_C1_protected_byte_corrupted :
    bugState.flash 0x7F001 = 1 ∧
      (flash_write bugState 0x7F001 (fun _ => 0x00) 1).2 = 0 ∧
      ((flash_write bugState 0x7F001 (fun _ => 0x00) 1).1).flash 0x7F001 = 0 := by
  decide

/-- Claim C2, counterexample: a 1-byte write at `0x7F0C8` satisfies the
claim's hypotheses (stays within one sector, range disjoint from the
protected bytes `0x7F000..0x7F06A`), returns success, yet the byte read
back is the archived byte of `0x7F000` (`0x00`), not the written `0x42`. -/
theorem claim_C2_counterexample :
    0x7F0C8 % 4096 + 1 ≤ 4096 ∧ 0x7F000 + 107 ≤ 0x7F0C8 ∧
      (flash_write bugState 0x7F0C8 (fun _ => 0x42) 1).2 = 0 ∧
      ((flash_write bugState 0x7F0C8 (fun _ => 0x42) 1).1).flash 0x7F0C8 = 0x00 ∧
      (0x00 : Nat) ≠ 0x42 := by
  decide

/-- Claim C2 (amended): the round trip `flash_write` then read back yields
exactly the written data whenever the write stays within one sector and
the target sector is not the protected sector `0x7F000`
(i.e. `offset / 4096 ≠ 127`); the call returns 0. -/
theorem claim_C2_roundtrip (s : PicoState) (off : Nat) (d : Nat → Nat) (n : Nat)
    (h1 : off % 4096 + n ≤ 4096) (h2 : off / 4096 ≠ 127) :
    (flash_write s off d n).2 = 0 ∧
      ∀ j, j < n → ((flash_write s off d n).1).flash (off + j) = d j := by
  have hdm := Nat.div_add_mod off 4096
  have hne : off - off % 4096 ≠ 0x7F000 := by
    intro hc
    apply h2
    omega
  simp only [flash_write]
  rw [if_neg (show ¬(4096 < off % 4096 + n) from by omega), if_neg hne]
  constructor
  · rfl
  · intro j hj
    dsimp only
    rw [if_pos (show off - off % 4096 ≤ off + j ∧
        off + j < off - off % 4096 + 4096 from by omega)]
    rw [if_pos (show off % 4096 ≤ off + j - (off - off % 4096) ∧
        off + j - (off - off % 4096) < off % 4096 + n from by omega)]
    congr 1
    omega

/-- Claim C2, witness for the amended round trip at a concrete input. -/
theorem claim_C2_roundtrip_witness :
    ((flash_write bugState 0x2005 (fun j => j + 7) 3).1).flash (0x2005 + 1) = 1 + 7 :=
  (claim_C2_roundtrip bugState 0x2005 (fun j => j + 7) 3 (by decide) (by decide)).2
    1 (by decide)

/-- Claim C3, counterexample: `flash_erase` contains no execution-location
check at all (the source function never inspects `main`'s address), so an
erase call issued while the guard reports "running from flash" still
mutates the region: the byte at `0x1000` becomes `0xFF` although it was
`0x00` before, instead of failing with `SelfDestructionRisk` and leaving
the region unchanged. -/
theorem claim_C3_counterexample :
    (flash_erase bugState 0x1000).flash 0x1000 = 0xFF ∧
      bugState.flash 0x1000 ≠ 0xFF := by
  decide

/-- Claim C3 (amended): only `erase_all_flash` consults the
execution-location guard; when the guard trips (`RunningFromFlash = true`)
it returns with the whole state unchanged and performs no hardware action,
while `flash_erase` and `flash_write` themselves never check the guard. -/
theorem claim_C3_guard_blocks_erase_all (s : PicoState) (u : Bool) (c : String) :
    erase_all_flash s u c true = s := by
  rw [erase_all_flash]
  split
  · rfl
  · rw [if_pos rfl]

/-- Claim C4, counterexample: `flash_erase(0x1001)` does NOT erase the
sector at `0x1000` (= `offset - k`, which the claim requires); it erases
the sector at `0x2000` instead.  Byte `0x1000` keeps its old non-erased
value `0x00` while byte `0x2000` becomes `0xFF`. -/
theorem claim_C4_counterexample :
    (flash_erase bugState 0x1001).flash 0x1000 = bugState.flash 0x1000 ∧
      bugState.flash 0x1000 ≠ 0xFF ∧
      (flash_erase bugState 0x1001).flash 0x2000 = 0xFF := by
  decide

/-- Claim C4 (amended): for a misaligned offset with
`offset mod 4096 = k ≠ 0`, `flash_erase` rounds the offset UP and erases
exactly the sector beginning at `offset + (4096 - k)` (the next sector
boundary), provided that sector is not the protected sector `0x7F000`;
every byte outside that sector is unchanged.  (The source reports the
correction on the log before erasing.) -/
theorem claim_C4_erase_rounds_up (s : PicoState) (off : Nat)
    (h1 : off % 4096 ≠ 0) (h2 : off + (4096 - off % 4096) ≠ 0x7F000) (o : Nat) :
    (flash_erase s off).flash o =
      if off + (4096 - off % 4096) ≤ o ∧ o < off + (4096 - off % 4096) + 4096 then 0xFF
      else s.flash o := by
  have hoff : (if off % 4096 = 0 then off else off + (4096 - off % 4096))
      = off + (4096 - off % 4096) := if_neg h1
  rw [flash_erase, hoff, if_neg h2]

/-- Claim C4, witness: `flash_erase(0x1001)` erases the byte at `0x2000`. -/
theorem claim_C4_witness :
    (flash_erase bugState 0x1001).flash 0x2000 =
      if 0x1001 + (4096 - 0x1001 % 4096) ≤ 0x2000 ∧
          0x2000 < 0x1001 + (4096 - 0x1001 % 4096) + 4096 then 0xFF
      else bugState.flash 0x2000 :=
  claim_C4_erase_rounds_up bugState 0x1001 (by decide) (by decide) 0x2000

/-- Claim C5: a `flash_write` whose data would cross a sector boundary
(`(offset mod 4096) + length > 4096`) returns the failure code 1 and
leaves the whole state — in particular every flash byte — unchanged. -/
theorem claim_C5_crosses_sector_boundary (s : PicoState) (off : Nat) (d : Nat → Nat)
    (n : Nat) (h : 4096 < off % 4096 + n) :
    flash_write s off d n = (s, 1) := by
  rw [flash_write, if_pos h]

/-- Claim C5, witness at a concrete crossing input. -/
theorem claim_C5_witness :
    flash_write bugState 0x100 (fun _ => 0) 4096 = (bugState, 1) :=
  claim_C5_crosses_sector_boundary bugState 0x100 (fun _ => 0) 4096 (by decide)

/-- Claim C6: with the confirmation given and the firmware running from
RAM, `flash_test` over its 5 write cycles of 5 patterns each reports a
total error count equal to the analytically predicted baseline
`107 × 2 × 5 × 5 = 5350`, provided no protected byte equals the erased
value `0xFF` or any applicable test-pattern byte (`0x00`, `0x55`, `0xAA`). -/
theorem claim_C6_burn_in_baseline (s : PicoState)
    (H : ∀ i, i < 107 →
        s.flash (0x7F000 + i) ≠ 0xFF ∧ s.flash (0x7F000 + i) ≠ 0x00 ∧
        s.flash (0x7F000 + i) ≠ 0x55 ∧ s.flash (0x7F000 + i) ≠ 0xAA) :
    (flash_test s "Y" false).2 = 5350 := by
  have hfold := flashTestCycles (fun i => s.flash (0x7F000 + i)) H (List.range 5) s 0
    (fun i _ => rfl)
  rw [flash_test, if_neg (by simp)]
  simp only []
  rw [hfold.2]
  simp [List.length_range]

/-- Claim C6, witness: on a state whose bytes are all `0x01` the burn-in
harness reports exactly 5350 errors. -/
theorem claim_C6_witness : (flash_test burnInState "Y" false).2 = 5350 := by
  apply claim_C6_burn_in_baseline
  intro i _
  refine ⟨?_, ?_, ?_, ?_⟩
  · show (1 : Nat) ≠ 0xFF; norm_num
  · show (1 : Nat) ≠ 0x00; norm_num
  · show (1 : Nat) ≠ 0x55; norm_num
  · show (1 : Nat) ≠ 0xAA; norm_num

/-- Claim C7: `flash_erase(0x7F000)` is the write-of-`0xFF`-with-protection
path: afterwards every byte of the sector `[0x7F000, 0x80000)` is `0xFF`
except the 107 protected bytes, which keep their pre-call values; bytes
outside the sector are unchanged. -/
theorem claim_C7_protected_sector_erase (s : PicoState) (o : Nat) :
    (flash_erase s 0x7F000).flash o =
      if 0x7F000 ≤ o ∧ o < 0x7F000 + 4096 then
        (if o < 0x7F000 + 107 then s.flash o else 0xFF)
      else s.flash o := by
  have h := flash_erase_sector_flash s 127 o
  norm_num at h ⊢
  exact h

/-- Claim C9: any confirmation other than exactly `"Y"` or `"y"` makes the
attended `erase_all_flash` and `flash_test` return immediately with the
whole state unchanged (and a zero error report for `flash_test`). -/
theorem claim_C9_confirmation_declined (s : PicoState) (c : String) (g : Bool)
    (h1 : c ≠ "Y") (h2 : c ≠ "y") :
    erase_all_flash s false c g = s ∧ flash_test s c g = (s, 0) := by
  constructor
  · rw [erase_all_flash, if_pos ⟨rfl, h1, h2⟩]
  · rw [flash_test, if_pos ⟨h1, h2⟩]

/-- Claim C9, witness with the declined confirmation `"N"`. -/
theorem claim_C9_witness :
    erase_all_flash bugState false "N" false = bugState ∧
      flash_test bugState "N" false = (bugState, 0) :=
  claim_C9_confirmation_declined bugState "N" false (by decide) (by decide)

/-- Claim C10: `flash_blank_check` is read-only — it returns the state
(flash and both staging buffers) unchanged; its only product is the error
count. -/
theorem claim_C10_blank_check_read_only (s : PicoState) :
    (flash_blank_check s).1 = s := rfl

/-- Claim C8: the blank check counts every non-erased byte of the scanned
2 MB range (not merely each dirty chunk), reports as dirty exactly the
16-byte chunks containing at least one non-erased byte, and in particular
a flash with a single non-erased byte at `A` yields count 1 and the single
dirty chunk starting at `16 * (A / 16)`, which covers `A`. -/
theorem claim_C8_blank_scan (s : PicoState) :
    ((flash_blank_check s).2
        = ((Finset.range 0x200000).filter (fun o => s.flash o ≠ 0xFF)).card) ∧
      (∀ c, c ∈ flash_blank_check_dirty_chunks s ↔
        ((∃ k, k < 131072 ∧ c = 16 * k) ∧ ∃ j, j < 16 ∧ s.flash (c + j) ≠ 0xFF)) ∧
      ∀ A, A < 0x200000 → (∀ o, o < 0x200000 → (s.flash o ≠ 0xFF ↔ o = A)) →
        (flash_blank_check s).2 = 1 ∧
          flash_blank_check_dirty_chunks s = [16 * (A / 16)] := by
  have h1 : (flash_blank_check s).2
      = ((Finset.range 0x200000).filter (fun o => s.flash o ≠ 0xFF)).card := by
    rw [flash_blank_check_count]
    exact sum_indicator_card (fun o => s.flash o ≠ 0xFF) 0x200000
  have h2 : ∀ c, c ∈ flash_blank_check_dirty_chunks s ↔
      ((∃ k, k < 131072 ∧ c = 16 * k) ∧ ∃ j, j < 16 ∧ s.flash (c + j) ≠ 0xFF) := by
    intro c
    rw [flash_blank_check_dirty_chunks, List.mem_filter]
    constructor
    · rintro ⟨hmem, hany⟩
      obtain ⟨k, hk, hck⟩ := List.mem_map.mp hmem
      rw [List.any_eq_true] at hany
      obtain ⟨j, hjmem, hj⟩ := hany
      exact ⟨⟨k, List.mem_range.mp hk, hck.symm⟩,
        j, List.mem_range.mp hjmem, by simpa using hj⟩
    · rintro ⟨⟨k, hk, rfl⟩, j, hj, hne⟩
      refine ⟨List.mem_map.mpr ⟨k, List.mem_range.mpr hk, rfl⟩, ?_⟩
      rw [List.any_eq_true]
      exact ⟨j, List.mem_range.mpr hj, by simpa using hne⟩
  refine ⟨h1, h2, ?_⟩
  intro A hA hsingle
  constructor
  · rw [h1]
    have hfilter : (Finset.range 0x200000).filter (fun o => s.flash o ≠ 0xFF) = {A} := by
      ext x
      simp only [Finset.mem_filter, Finset.mem_range, Finset.mem_singleton]
      constructor
      · rintro ⟨hx, hne⟩
        exact (hsingle x hx).mp hne
      · intro hxA
        rw [hxA]
        exact ⟨hA, (hsingle A hA).mpr rfl⟩
    rw [hfilter, Finset.card_singleton]
  · rw [flash_blank_check_dirty_chunks, List.filter_map]
    have hfc : (List.range 131072).filter
        ((fun c => (List.range 16).any (fun j => s.flash (c + j) != 0xFF)) ∘ (fun k => 16 * k))
        = (List.range 131072).filter (fun k => k == A / 16) := by
      apply List.filter_congr
      intro k hk
      have hk' : k < 131072 := List.mem_range.mp hk
      rw [Bool.eq_iff_iff]
      simp only [Function.comp_def, List.any_eq_true, List.mem_range, bne_iff_ne, ne_eq,
        beq_iff_eq]
      constructor
      · rintro ⟨j, hj, hne⟩
        have := (hsingle (16 * k + j) (by omega)).mp hne
        omega
      · rintro rfl
        refine ⟨A % 16, by omega, ?_⟩
        rw [show 16 * (A / 16) + A % 16 = A from by omega]
        exact (hsingle A hA).mpr rfl
    rw [hfc, filter_range_single (A / 16) 131072 (by omega)]
    simp

/-- Claim C8, witness: a flash with the single non-erased byte `0x00` at
offset 5 yields total count 1 and the single dirty chunk at offset 0. -/
theorem claim_C8_witness :
    (flash_blank_check
        { flash := fun o => if o = 5 then 0 else 0xFF,
          FlashNewData := fun _ => 0, FlashOldData := fun _ => 0 }).2 = 1 ∧
      flash_blank_check_dirty_chunks
        { flash := fun o => if o = 5 then 0 else 0xFF,
          FlashNewData := fun _ => 0, FlashOldData := fun _ => 0 } = [16 * (5 / 16)] :=
  (claim_C8_blank_scan _).2.2 5 (by norm_num)
    (by
      intro o _
      by_cases h : o = 5
      · subst h; simp
      · simp [h])
